import Mathlib

/-!
Verification of the position-lifecycle and strategy-decision core of the
Binance grid trading bot (src/main.py, class CryptoTradeBot).

Modelling conventions:
* Python Decimal values are modelled as exact rationals (ℚ); the Decimal
  context rounding at precision 18 is abstracted away.
* The mutable bot state (usdt_balance, btc_balance, operations) is an
  explicit BotState record; the buy and sell methods become state
  transitions returning a result tag that mirrors the code's log branches.
  The balance updates follow the simulated path, where buy and sell adjust
  the in-memory balances directly.
* Each strategy method calls buy and sell imperatively; here a strategy is
  the pure decision part: it returns the list of actions the method would
  invoke on the given tick, in invocation order.
* A position dictionary always carries the keys price, amount and target,
  as created by the buy method (a Position record); the timestamp field is
  irrelevant to every property considered and is omitted.
-/

namespace TradeBot

/-- One open operation in the queue, as appended by CryptoTradeBot.buy:
price is the entry price, amount the quantity bought, target the sell
target computed at creation. -/
structure Position where
  price : ℚ
  amount : ℚ
  target : ℚ
deriving DecidableEq, Repr

instance : Inhabited Position := ⟨⟨0, 0, 0⟩⟩

/-- The per-run configuration fields of CryptoTradeBot used by the
decision and order logic. -/
structure Config where
  profit_threshold : ℚ
  drop_threshold : ℚ
  trade_amount_btc : ℚ
  budget_limit : ℚ
deriving DecidableEq, Repr

/-- The mutable fields of CryptoTradeBot touched by buy and sell. -/
structure BotState where
  usdt_balance : ℚ
  btc_balance : ℚ
  operations : List Position
deriving DecidableEq, Repr

/-- Outcome tag for the buy method, one per branch of its if-cascade:
placed means an order was created and the state mutated; limitReached is
the branch that logs "Limite de compras alcançado"; insufficientFunds is
the branch that logs "Saldo insuficiente". -/
inductive BuyResult
  | placed
  | limitReached
  | insufficientFunds
deriving DecidableEq, Repr

/-- CryptoTradeBot.buy (src/main.py lines 194-234), simulated path.
cost = price * trade_amount_btc; the outer guard is
usdt_balance >= cost and the inner guard is
budget_limit > 0 and usdt_balance - cost < budget_limit, with the
purchase performed in the inner-guard-true branch exactly as in the
source. On a placed order the operation
(price, trade_amount_btc, price * (1 + profit_threshold)) is appended. -/
def buy (cfg : Config) (s : BotState) (price : ℚ) : BuyResult × BotState :=
  let cost := price * cfg.trade_amount_btc
  if cost ≤ s.usdt_balance then
    if 0 < cfg.budget_limit ∧ s.usdt_balance - cost < cfg.budget_limit then
      (BuyResult.placed,
        { usdt_balance := s.usdt_balance - cost
          btc_balance := s.btc_balance + cfg.trade_amount_btc
          operations := s.operations ++
            [{ price := price
               amount := cfg.trade_amount_btc
               target := price * (1 + cfg.profit_threshold) }] })
    else
      (BuyResult.limitReached, s)
  else
    (BuyResult.insufficientFunds, s)

/-- Outcome tag for the sell method, one per branch: indexOutOfRange is
the invalid-index early return, insufficientHoldings the insufficient
crypto balance early return, placed the executed sell. -/
inductive SellResult
  | placed
  | indexOutOfRange
  | insufficientHoldings
deriving DecidableEq, Repr

/-- CryptoTradeBot.sell (src/main.py lines 236-273), simulated path.
The index is a Python int, so it is modelled as ℤ; the guard is
operation_index < 0 or operation_index >= len(operations). On success
proceeds = amount * price are added to fiat, amount is removed from
crypto, and the operation is deleted from the queue. -/
def sell (s : BotState) (operation_index : ℤ) (price : ℚ) :
    SellResult × BotState :=
  if operation_index < 0 ∨ (s.operations.length : ℤ) ≤ operation_index then
    (SellResult.indexOutOfRange, s)
  else if s.btc_balance <
      (s.operations.getD operation_index.toNat default).amount then
    (SellResult.insufficientHoldings, s)
  else
    (SellResult.placed,
      { usdt_balance := s.usdt_balance +
          (s.operations.getD operation_index.toNat default).amount * price
        btc_balance := s.btc_balance -
          (s.operations.getD operation_index.toNat default).amount
        operations := s.operations.eraseIdx operation_index.toNat })

/-- A decision taken by a strategy on one tick: invoke buy at a price, or
invoke sell at a queue index and price. -/
inductive Action
  | buy (price : ℚ)
  | sellAt (index : ℕ) (price : ℚ)
deriving DecidableEq, Repr

/-- The enumeration loop of CryptoTradeBot.evaluate_operations: for each
operation, first the sell trigger (current_price >= target, then break),
then the scale-in buy trigger
(current_price <= price * (1 - drop_threshold), then break). -/
def evalOpsGo (cfg : Config) (price : ℚ) : List Position → ℕ → List Action
  | [], _ => []
  | op :: rest, i =>
    if op.target ≤ price then [Action.sellAt i price]
    else if price ≤ op.price * (1 - cfg.drop_threshold) then [Action.buy price]
    else evalOpsGo cfg price rest (i + 1)

/-- CryptoTradeBot.evaluate_operations (src/main.py lines 378-398), the
basic strategy: return immediately when current_price == 0, else run the
single enumeration pass over the queue. -/
def evaluate_operations (cfg : Config) (ops : List Position)
    (current_price : ℚ) : List Action :=
  if current_price = 0 then [] else evalOpsGo cfg current_price ops 0

/-- Python max over a list, defined for the nonempty case (the strategies
only apply it under a length guard). -/
def listMax : List ℚ → ℚ
  | [] => 0
  | x :: xs => xs.foldl max x

/-- Python min over a list, defined for the nonempty case. -/
def listMin : List ℚ → ℚ
  | [] => 0
  | x :: xs => xs.foldl min x

/-- CryptoTradeBot.strategy_breakout (src/main.py lines 279-295): with
fewer than 2 closes do nothing; else current is the last close, previous
the rest; buy when current > max previous; independently sell the oldest
operation when current < min previous and the queue is nonempty. -/
def strategy_breakout (ops : List Position) (closes : List ℚ) :
    List Action :=
  if closes.length < 2 then []
  else
    (if listMax closes.dropLast < closes.getLastD 0 then
        [Action.buy (closes.getLastD 0)]
      else []) ++
    (if closes.getLastD 0 < listMin closes.dropLast ∧ ops ≠ [] then
        [Action.sellAt 0 (closes.getLastD 0)]
      else [])

/-- CryptoTradeBot.strategy_sma (src/main.py lines 298-314): SMA of all
closes but the last; buy on an upward cross with a non-trivial fiat
balance, sell the oldest operation on a downward cross. -/
def strategy_sma (usdt_balance : ℚ) (ops : List Position)
    (closes : List ℚ) (period : ℕ) : List Action :=
  if closes.length < period + 1 then []
  else
    (if closes.dropLast.getLastD 0 ≤
          closes.dropLast.sum / (closes.dropLast.length : ℚ) ∧
        closes.dropLast.sum / (closes.dropLast.length : ℚ) <
          closes.getLastD 0 ∧
        (1 : ℚ) / 100000000 ≤ usdt_balance then
        [Action.buy (closes.getLastD 0)]
      else []) ++
    (if closes.dropLast.sum / (closes.dropLast.length : ℚ) ≤
          closes.dropLast.getLastD 0 ∧
        closes.getLastD 0 <
          closes.dropLast.sum / (closes.dropLast.length : ℚ) ∧
        ops ≠ [] then
        [Action.sellAt 0 (closes.getLastD 0)]
      else [])

/-- The delta list of CryptoTradeBot.calculate_rsi: for i = 1..period the
loop computes closes[-i] - closes[-i-1]; with j = i - 1 this is entry j
of the reversed list minus entry j + 1. -/
def rsiDeltas (closes : List ℚ) (period : ℕ) : List ℚ :=
  (List.range period).map
    (fun j => closes.reverse.getD j 0 - closes.reverse.getD (j + 1) 0)

/-- Accumulated gains of calculate_rsi: each positive delta contributes
itself, every other delta contributes nothing. -/
def rsiGains (closes : List ℚ) (period : ℕ) : ℚ :=
  ((rsiDeltas closes period).map (fun d => if 0 < d then d else 0)).sum

/-- Accumulated losses of calculate_rsi: each non-positive delta
contributes its absolute value. -/
def rsiLosses (closes : List ℚ) (period : ℕ) : ℚ :=
  ((rsiDeltas closes period).map (fun d => if 0 < d then 0 else -d)).sum

/-- avg_gain of calculate_rsi. -/
def rsiAvgGain (closes : List ℚ) (period : ℕ) : ℚ :=
  rsiGains closes period / (period : ℚ)

/-- avg_loss of calculate_rsi. -/
def rsiAvgLoss (closes : List ℚ) (period : ℕ) : ℚ :=
  rsiLosses closes period / (period : ℚ)

/-- CryptoTradeBot.calculate_rsi (src/main.py lines 317-334): None when
fewer than period + 1 closes; 100 when avg_loss == 0; otherwise
100 - 100 / (1 + avg_gain / avg_loss). -/
def calculate_rsi (closes : List ℚ) (period : ℕ) : Option ℚ :=
  if closes.length < period + 1 then none
  else if rsiAvgLoss closes period = 0 then some 100
  else
    some (100 - 100 /
      (1 + rsiAvgGain closes period / rsiAvgLoss closes period))

/-- CryptoTradeBot.strategy_rsi (src/main.py lines 336-352): return on an
empty closes list or a None RSI; buy at the last close when
rsi <= buy_level; independently sell the oldest operation when
rsi >= sell_level and the queue is nonempty. -/
def strategy_rsi (ops : List Position) (closes : List ℚ) (period : ℕ)
    (buy_level sell_level : ℚ) : List Action :=
  if closes = [] then []
  else
    match calculate_rsi closes period with
    | none => []
    | some rsi =>
      (if rsi ≤ buy_level then [Action.buy (closes.getLastD 0)] else []) ++
      (if sell_level ≤ rsi ∧ ops ≠ [] then
          [Action.sellAt 0 (closes.getLastD 0)]
        else [])

/-- CryptoTradeBot.strategy_dca (src/main.py lines 355-375): return when
current_price == 0; seed buy on an empty queue; else compare against the
price of the last operation in the queue: buy on a drop past
drop_threshold, and independently sell the operation at index 0 when the
profit target relative to that last price is reached. -/
def strategy_dca (cfg : Config) (ops : List Position)
    (current_price : ℚ) : List Action :=
  if current_price = 0 then []
  else
    match ops.getLast? with
    | none => [Action.buy current_price]
    | some last =>
      (if current_price ≤ last.price * (1 - cfg.drop_threshold) then
          [Action.buy current_price]
        else []) ++
      (if last.price * (1 + cfg.profit_threshold) ≤ current_price then
          [Action.sellAt 0 current_price]
        else [])

/-! ### Helper lemmas -/

theorem foldl_min_le (a : ℚ) (l : List ℚ) : l.foldl min a ≤ a := by
  induction l generalizing a with
  | nil => exact le_refl a
  | cons x xs ih => exact le_trans (ih (min a x)) (min_le_left a x)

theorem le_foldl_max (a : ℚ) (l : List ℚ) : a ≤ l.foldl max a := by
  induction l generalizing a with
  | nil => exact le_refl a
  | cons x xs ih => exact le_trans (le_max_left a x) (ih (max a x))

theorem listMin_le_listMax (l : List ℚ) (h : l ≠ []) :
    listMin l ≤ listMax l := by
  cases l with
  | nil => exact absurd rfl h
  | cons x xs => exact le_trans (foldl_min_le x xs) (le_foldl_max x xs)

theorem evalOpsGo_length_le (cfg : Config) (p : ℚ) (ops : List Position)
    (i : ℕ) : (evalOpsGo cfg p ops i).length ≤ 1 := by
  induction ops generalizing i with
  | nil => simp [evalOpsGo]
  | cons op rest ih =>
    simp only [evalOpsGo]
    split_ifs <;> simp [ih]

theorem evalOpsGo_eq_nil (cfg : Config) (p : ℚ) (ops : List Position)
    (i : ℕ)
    (h : ∀ op ∈ ops,
      ¬(op.target ≤ p ∨ p ≤ op.price * (1 - cfg.drop_threshold))) :
    evalOpsGo cfg p ops i = [] := by
  induction ops generalizing i with
  | nil => rfl
  | cons op rest ih =>
    have h1 := h op (List.mem_cons_self op rest)
    push_neg at h1
    simp only [evalOpsGo]
    rw [if_neg (not_le.mpr h1.1), if_neg (not_le.mpr h1.2)]
    exact ih (i + 1) (fun o ho => h o (List.mem_cons_of_mem _ ho))

theorem evalOpsGo_first_trigger (cfg : Config) (p : ℚ)
    (ops : List Position) (i j : ℕ) (hj : j < ops.length)
    (hbefore : ∀ k, k < j →
      ¬((ops.getD k default).target ≤ p ∨
        p ≤ (ops.getD k default).price * (1 - cfg.drop_threshold)))
    (htrig : (ops.getD j default).target ≤ p ∨
      p ≤ (ops.getD j default).price * (1 - cfg.drop_threshold)) :
    evalOpsGo cfg p ops i =
      if (ops.getD j default).target ≤ p then [Action.sellAt (i + j) p]
      else [Action.buy p] := by
  induction ops generalizing i j with
  | nil => exact absurd hj (Nat.not_lt_zero j)
  | cons op rest ih =>
    cases j with
    | zero =>
      simp only [List.getD_cons_zero] at htrig ⊢
      simp only [evalOpsGo]
      by_cases hsell : op.target ≤ p
      · rw [if_pos hsell, if_pos hsell, Nat.add_zero]
      · have hbuy : p ≤ op.price * (1 - cfg.drop_threshold) :=
          htrig.resolve_left hsell
        rw [if_neg hsell, if_pos hbuy, if_neg hsell]
    | succ j =>
      have h0 := hbefore 0 (Nat.succ_pos j)
      simp only [List.getD_cons_zero] at h0
      push_neg at h0
      simp only [List.getD_cons_succ] at htrig ⊢
      simp only [evalOpsGo]
      rw [if_neg (not_le.mpr h0.1), if_neg (not_le.mpr h0.2)]
      have hrest := ih (i + 1) j (Nat.lt_of_succ_lt_succ hj)
        (fun k hk => by
          have := hbefore (k + 1) (Nat.succ_lt_succ hk)
          simpa only [List.getD_cons_succ] using this)
        htrig
      rw [hrest]
      have : i + 1 + j = i + (j + 1) := by omega
      rw [this]

/-! ### Claim theorems -/

/-- C1: the budget-floor guard in CryptoTradeBot.buy is inverted. With
fiat 50, budget_limit 40, trade_amount 1 and price 15 (Scenario D of the
specification) the code places the buy and mutates the state — remaining
fiat 35 is below the floor 40 — whereas the specification requires the
buy to fail with BudgetLimitBreach and leave the state unchanged. And
with budget_limit 0 (documented in the source as "no limit") a buy that
the specification requires to succeed is rejected by the branch that
logs "Limite de compras alcançado". -/
theorem buy_budget_guard_inverted :
    buy ⟨5/1000, 2/100, 1, 40⟩ ⟨50, 0, []⟩ 15 =
      (BuyResult.placed, ⟨35, 1, [⟨15, 1, 15 * (1 + 5/1000)⟩]⟩) ∧
    buy ⟨5/1000, 2/100, 1, 0⟩ ⟨100, 0, []⟩ 10 =
      (BuyResult.limitReached, ⟨100, 0, []⟩) := by
  constructor <;> norm_num [buy]

/-- C3 counterexample: the breakout strategy has no zero-price guard.
With closes [10, 11, 0] (most recent close zero) and one open
operation, the previous window has bottom 10, the current close 0 is
below it, and the strategy decides a sell at price 0 instead of
holding. -/
theorem breakout_sells_on_zero_close :
    strategy_breakout [⟨100, 1, 101⟩] [10, 11, 0] = [Action.sellAt 0 0] := by
  norm_num [strategy_breakout, listMax, listMin]

/-- C3 amended: only the basic and dca strategies guard against a zero
current price; for them a zero price yields no action, for every
configuration and every position queue. -/
theorem zero_price_holds_basic_and_dca (cfg : Config)
    (ops : List Position) :
    evaluate_operations cfg ops 0 = [] ∧ strategy_dca cfg ops 0 = [] := by
  constructor <;> simp [evaluate_operations, strategy_dca]

/-- C2 counterexample: with positions [entry 100, target 102] and
[entry 90, target 91], drop threshold 0.02 and current price 95, the
second position's target 91 is reached, yet the basic strategy decides
Buy(95) from the first position's drop trigger — not SellAt(1, 95) as
the claim requires whenever a reached target exists. -/
theorem basic_buy_preempts_later_sell :
    evaluate_operations ⟨5/1000, 2/100, 1, 0⟩
        [⟨100, 1, 102⟩, ⟨90, 1, 91⟩] 95 = [Action.buy 95] ∧
      (([⟨100, 1, 102⟩, ⟨90, 1, 91⟩] : List Position).getD 1
          default).target ≤ 95 := by
  constructor
  · norm_num [evaluate_operations, evalOpsGo]
  · norm_num

/-- C2 amended: the basic strategy makes a single pass over the queue,
oldest first, checking each position's sell trigger (target reached)
and then its buy trigger (drop past the threshold); the decision comes
from the first position at which either trigger fires — a sell at that
index if its target is reached, else a buy — so a later position's
reached target is preempted by an earlier position's buy trigger; no
trigger means no action, and at most one action per tick. -/
theorem basic_single_pass_first_trigger (cfg : Config)
    (ops : List Position) (p : ℚ) (hp : p ≠ 0) :
    (evaluate_operations cfg ops p).length ≤ 1 ∧
    ((∀ op ∈ ops,
        ¬(op.target ≤ p ∨ p ≤ op.price * (1 - cfg.drop_threshold))) →
      evaluate_operations cfg ops p = []) ∧
    (∀ j, j < ops.length →
      (∀ k, k < j →
        ¬((ops.getD k default).target ≤ p ∨
          p ≤ (ops.getD k default).price * (1 - cfg.drop_threshold))) →
      ((ops.getD j default).target ≤ p ∨
        p ≤ (ops.getD j default).price * (1 - cfg.drop_threshold)) →
      evaluate_operations cfg ops p =
        if (ops.getD j default).target ≤ p then [Action.sellAt j p]
        else [Action.buy p]) := by
  unfold evaluate_operations
  rw [if_neg hp]
  refine ⟨evalOpsGo_length_le cfg p ops 0,
    fun h => evalOpsGo_eq_nil cfg p ops 0 h,
    fun j hj hb ht => ?_⟩
  have := evalOpsGo_first_trigger cfg p ops 0 j hj hb ht
  simpa using this

/-- Witness for C2 amended: one position with target 102 and current
price 103; the first trigger is its reached target, so the decision is
SellAt(0, 103). -/
theorem basic_single_pass_first_trigger_w :
    evaluate_operations ⟨5/1000, 2/100, 1, 0⟩ [⟨100, 1, 102⟩] 103 =
      [Action.sellAt 0 103] := by
  have h := (basic_single_pass_first_trigger ⟨5/1000, 2/100, 1, 0⟩
      [⟨100, 1, 102⟩] 103 (by norm_num)).2.2 0 (by norm_num)
      (fun k hk => absurd hk (Nat.not_lt_zero k))
      (Or.inl (by norm_num))
  rw [h, if_pos (by norm_num)]

/-- C9: in the breakout strategy the buy trigger (last close above the
maximum of the preceding closes) and the sell trigger (last close below
the minimum of the preceding closes) cannot hold together once at least
2 closes are present, so the strategy emits at most one action. -/
theorem breakout_at_most_one_action (ops : List Position)
    (closes : List ℚ) :
    (strategy_breakout ops closes).length ≤ 1 ∧
    (2 ≤ closes.length →
      ¬(listMax closes.dropLast < closes.getLastD 0 ∧
        closes.getLastD 0 < listMin closes.dropLast)) := by
  have hkey : 2 ≤ closes.length →
      ¬(listMax closes.dropLast < closes.getLastD 0 ∧
        closes.getLastD 0 < listMin closes.dropLast) := by
    rintro h2 ⟨hup, hdown⟩
    have hne : closes.dropLast ≠ [] := by
      have hl := List.length_dropLast closes
      intro hnil
      rw [hnil] at hl
      simp at hl
      omega
    have := listMin_le_listMax closes.dropLast hne
    linarith
  refine ⟨?_, hkey⟩
  by_cases hlen : closes.length < 2
  · simp [strategy_breakout, hlen]
  · have h2 : 2 ≤ closes.length := by omega
    by_cases hup : listMax closes.dropLast < closes.getLastD 0
    · have hnodown : ¬(closes.getLastD 0 < listMin closes.dropLast ∧
          ops ≠ []) := fun hd => hkey h2 ⟨hup, hd.1⟩
      simp only [strategy_breakout, if_neg hlen, if_pos hup,
        if_neg hnodown]
      simp
    · simp only [strategy_breakout, if_neg hlen, if_neg hup]
      split_ifs <;> simp

/-- Witness for C9: closes [1, 2, 3] — the triggers are exclusive and
the decision list has at most one element. -/
theorem breakout_at_most_one_action_w :
    (strategy_breakout [] [1, 2, 3]).length ≤ 1 ∧
    ¬(listMax ([1, 2, 3] : List ℚ).dropLast <
        ([1, 2, 3] : List ℚ).getLastD 0 ∧
      ([1, 2, 3] : List ℚ).getLastD 0 <
        listMin ([1, 2, 3] : List ℚ).dropLast) :=
  ⟨(breakout_at_most_one_action [] [1, 2, 3]).1,
    (breakout_at_most_one_action [] [1, 2, 3]).2 (by norm_num)⟩

/-- C6: when the amount of the operation selected for a sell exceeds the
current crypto balance, sell fails with insufficientHoldings and the
state — both balances and the operation queue — is returned unchanged. -/
theorem sell_insufficient_holdings_atomic (s : BotState) (i : ℤ) (p : ℚ)
    (h0 : 0 ≤ i) (hlen : i < (s.operations.length : ℤ))
    (hbal : s.btc_balance < (s.operations.getD i.toNat default).amount) :
    sell s i p = (SellResult.insufficientHoldings, s) := by
  unfold sell
  rw [if_neg (by omega), if_pos hbal]

/-- Witness for C6: fiat 0, crypto 0, one operation of amount 1; selling
it at price 50 fails with insufficientHoldings and changes nothing. -/
theorem sell_insufficient_holdings_atomic_w :
    sell ⟨0, 0, [⟨100, 1, 101⟩]⟩ 0 50 =
      (SellResult.insufficientHoldings, ⟨0, 0, [⟨100, 1, 101⟩]⟩) :=
  sell_insufficient_holdings_atomic ⟨0, 0, [⟨100, 1, 101⟩]⟩ 0 50
    (by norm_num) (by norm_num) (by norm_num [List.getD])

/-- C7: sell fails with indexOutOfRange exactly when the index is
outside [0, len), in which case the state is unchanged; when the sell is
placed, the resulting queue is the original with exactly the indexed
element removed — the prefix before it and the suffix after it are kept
in order — and its length drops by exactly one. -/
theorem sell_remove_index_spec (s : BotState) (i : ℤ) (p : ℚ) :
    ((sell s i p).1 = SellResult.indexOutOfRange ↔
      (i < 0 ∨ (s.operations.length : ℤ) ≤ i)) ∧
    ((sell s i p).1 = SellResult.indexOutOfRange → (sell s i p).2 = s) ∧
    ((sell s i p).1 = SellResult.placed →
      (sell s i p).2.operations =
        s.operations.take i.toNat ++ s.operations.drop (i.toNat + 1) ∧
      (sell s i p).2.operations.length + 1 = s.operations.length) := by
  unfold sell
  split_ifs with hguard hbal
  · simp [hguard]
  · simp [hguard]
  · have hi : i.toNat < s.operations.length := by omega
    refine ⟨by simp [hguard], by simp, fun _ => ⟨?_, ?_⟩⟩
    · simpa using List.eraseIdx_eq_take_drop_succ ..
    · simpa using List.length_eraseIdx_add_one hi

/-- Witness for C7: selling the only operation of a queue of length one
at index 0 empties the queue, matching take 0 ++ drop 1 with the length
decreased by one. -/
theorem sell_remove_index_spec_w :
    (sell ⟨0, 5, [⟨100, 1, 101⟩]⟩ 0 50).2.operations =
        ([⟨100, 1, 101⟩] : List Position).take 0 ++
          ([⟨100, 1, 101⟩] : List Position).drop (0 + 1) ∧
      (sell ⟨0, 5, [⟨100, 1, 101⟩]⟩ 0 50).2.operations.length + 1 =
        ([⟨100, 1, 101⟩] : List Position).length :=
  (sell_remove_index_spec ⟨0, 5, [⟨100, 1, 101⟩]⟩ 0 50).2.2
    (by norm_num [sell, List.getD])

/-- C8: a placed buy appends exactly one operation, whose target is
exactly price * (1 + profit_threshold); any other outcome of buy leaves
the queue unchanged; and sell either leaves the queue unchanged or
removes exactly one element, so existing operations are never mutated. -/
theorem positions_immutable_once_created (cfg : Config) (s : BotState)
    (p : ℚ) (i : ℤ) (q : ℚ) :
    ((buy cfg s p).2.operations = s.operations ∨
      (buy cfg s p).2.operations = s.operations ++
        [{ price := p, amount := cfg.trade_amount_btc,
           target := p * (1 + cfg.profit_threshold) }]) ∧
    ((sell s i q).2.operations = s.operations ∨
      (sell s i q).2.operations = s.operations.eraseIdx i.toNat) := by
  constructor
  · simp only [buy]
    split_ifs <;> simp
  · simp only [sell]
    split_ifs <;> simp

/-- C4: for the dca strategy at a nonzero current price: an empty queue
yields the seed buy; for a nonempty queue, a buy is decided exactly when
the current price has dropped past drop_threshold relative to the entry
price of the most recently opened position, a sell is decided exactly
when the profit target relative to that same last entry is reached, and
every sell the strategy ever decides targets index 0 — the oldest
position, not the one whose entry price was compared. -/
theorem dca_decision_spec (cfg : Config) (ops : List Position) (p : ℚ)
    (hp : p ≠ 0) :
    (ops = [] → strategy_dca cfg ops p = [Action.buy p]) ∧
    (∀ last, ops.getLast? = some last →
      ((Action.buy p ∈ strategy_dca cfg ops p ↔
          p ≤ last.price * (1 - cfg.drop_threshold)) ∧
        (Action.sellAt 0 p ∈ strategy_dca cfg ops p ↔
          last.price * (1 + cfg.profit_threshold) ≤ p) ∧
        (∀ i q, Action.sellAt i q ∈ strategy_dca cfg ops p →
          i = 0 ∧ q = p))) := by
  constructor
  · intro h
    subst h
    simp [strategy_dca, hp]
  · intro last hlast
    simp only [strategy_dca, if_neg hp, hlast]
    refine ⟨?_, ?_, ?_⟩
    · split_ifs <;> simp_all
    · split_ifs <;> simp_all
    · intro i q
      split_ifs <;> simp_all

/-- Witness for C4: one open position with entry 100, drop threshold
0.02, profit threshold 0.005, current price 97: the drop trigger fires
(97 is at most 98) and the profit trigger does not. -/
theorem dca_decision_spec_w :
    (([⟨100, 1, 1005/10⟩] : List Position) = [] →
      strategy_dca ⟨5/1000, 2/100, 1, 0⟩ [⟨100, 1, 1005/10⟩] 97 =
        [Action.buy 97]) ∧
    (∀ last, ([⟨100, 1, 1005/10⟩] : List Position).getLast? = some last →
      ((Action.buy 97 ∈
            strategy_dca ⟨5/1000, 2/100, 1, 0⟩ [⟨100, 1, 1005/10⟩] 97 ↔
          (97 : ℚ) ≤ last.price * (1 - 2/100)) ∧
        (Action.sellAt 0 97 ∈
            strategy_dca ⟨5/1000, 2/100, 1, 0⟩ [⟨100, 1, 1005/10⟩] 97 ↔
          last.price * (1 + 5/1000) ≤ 97) ∧
        (∀ i q, Action.sellAt i q ∈
            strategy_dca ⟨5/1000, 2/100, 1, 0⟩ [⟨100, 1, 1005/10⟩] 97 →
          i = 0 ∧ q = 97))) :=
  dca_decision_spec ⟨5/1000, 2/100, 1, 0⟩ [⟨100, 1, 1005/10⟩] 97
    (by norm_num)

theorem rsiGains_nonneg (closes : List ℚ) (period : ℕ) :
    0 ≤ rsiGains closes period := by
  unfold rsiGains
  apply List.sum_nonneg
  intro x hx
  rw [List.mem_map] at hx
  obtain ⟨d, -, rfl⟩ := hx
  split_ifs with h
  · exact le_of_lt h
  · exact le_refl 0

theorem rsiLosses_nonneg (closes : List ℚ) (period : ℕ) :
    0 ≤ rsiLosses closes period := by
  unfold rsiLosses
  apply List.sum_nonneg
  intro x hx
  rw [List.mem_map] at hx
  obtain ⟨d, -, rfl⟩ := hx
  split_ifs with h
  · exact le_refl 0
  · linarith [not_lt.mp h]

/-- C5: for at least period + 1 closes and a positive period, the RSI is
computed, lies in [0, 100], equals exactly 100 when the average loss is
zero, and equals 100 - 100 / (1 + avgGain / avgLoss) otherwise. -/
theorem calculate_rsi_bounds (closes : List ℚ) (period : ℕ)
    (hlen : period + 1 ≤ closes.length) (_hper : 0 < period) :
    ∃ r, calculate_rsi closes period = some r ∧ 0 ≤ r ∧ r ≤ 100 ∧
      (rsiAvgLoss closes period = 0 → r = 100) ∧
      (rsiAvgLoss closes period ≠ 0 →
        r = 100 - 100 /
          (1 + rsiAvgGain closes period / rsiAvgLoss closes period)) := by
  have hnl : ¬(closes.length < period + 1) := by omega
  have hg : 0 ≤ rsiAvgGain closes period :=
    div_nonneg (rsiGains_nonneg closes period) (Nat.cast_nonneg period)
  have hl : 0 ≤ rsiAvgLoss closes period :=
    div_nonneg (rsiLosses_nonneg closes period) (Nat.cast_nonneg period)
  by_cases h0 : rsiAvgLoss closes period = 0
  · refine ⟨100, ?_, by norm_num, by norm_num, fun _ => rfl,
      fun hc => absurd h0 hc⟩
    simp [calculate_rsi, hnl, h0]
  · have hrs : 0 ≤ rsiAvgGain closes period / rsiAvgLoss closes period :=
      div_nonneg hg hl
    refine ⟨_, by simp [calculate_rsi, hnl, h0], ?_, ?_,
      fun hc => absurd hc h0, fun _ => rfl⟩
    · have h1 : (1 : ℚ) ≤
          1 + rsiAvgGain closes period / rsiAvgLoss closes period := by
        linarith
      have h2 := div_le_self (by norm_num : (0:ℚ) ≤ 100) h1
      linarith
    · have hpos : (0 : ℚ) <
          1 + rsiAvgGain closes period / rsiAvgLoss closes period := by
        linarith
      have h3 : (0 : ℚ) ≤ 100 /
          (1 + rsiAvgGain closes period / rsiAvgLoss closes period) :=
        div_nonneg (by norm_num) (le_of_lt hpos)
      linarith

/-- Witness for C5: closes [1, 2] with period 1 — one rising delta, so
the average loss is zero and the RSI is exactly 100. -/
theorem calculate_rsi_bounds_w :
    ∃ r, calculate_rsi [1, 2] 1 = some r ∧ 0 ≤ r ∧ r ≤ 100 ∧
      (rsiAvgLoss [1, 2] 1 = 0 → r = 100) ∧
      (rsiAvgLoss [1, 2] 1 ≠ 0 →
        r = 100 - 100 / (1 + rsiAvgGain [1, 2] 1 / rsiAvgLoss [1, 2] 1)) :=
  calculate_rsi_bounds [1, 2] 1 (by simp) (by norm_num)

theorem getD_append_left_q (l1 l2 : List ℚ) (j : ℕ) (d : ℚ)
    (h : j < l1.length) : (l1 ++ l2).getD j d = l1.getD j d := by
  simp [List.getD_eq_getElem?_getD, List.getElem?_append_left h]

theorem rsiDeltas_append (closes extra : List ℚ) (period : ℕ)
    (hlen : period + 1 ≤ closes.length) :
    rsiDeltas (extra ++ closes) period = rsiDeltas closes period := by
  unfold rsiDeltas
  apply List.map_congr_left
  intro j hj
  rw [List.mem_range] at hj
  rw [List.reverse_append]
  have hj1 : j < closes.reverse.length := by
    rw [List.length_reverse]; omega
  have hj2 : j + 1 < closes.reverse.length := by
    rw [List.length_reverse]; omega
  rw [getD_append_left_q _ _ _ _ hj1, getD_append_left_q _ _ _ _ hj2]

theorem calculate_rsi_append (closes extra : List ℚ) (period : ℕ)
    (hlen : period + 1 ≤ closes.length) :
    calculate_rsi (extra ++ closes) period =
      calculate_rsi closes period := by
  have hd := rsiDeltas_append closes extra period hlen
  have hag : rsiAvgGain (extra ++ closes) period =
      rsiAvgGain closes period := by
    simp [rsiAvgGain, rsiGains, hd]
  have hal : rsiAvgLoss (extra ++ closes) period =
      rsiAvgLoss closes period := by
    simp [rsiAvgLoss, rsiLosses, hd]
  have hl1 : ¬(extra.length + closes.length < period + 1) := by omega
  have hl2 : ¬(closes.length < period + 1) := by omega
  simp [calculate_rsi, hl1, hl2, hag, hal]

/-- C10: with at least period + 1 closes available and a positive
period, prepending any older closes changes neither the computed RSI
nor the decision of the RSI strategy for a fixed position queue and
fixed levels: the computation reads only the trailing period + 1
closes. -/
theorem rsi_trailing_window (ops : List Position)
    (closes extra : List ℚ) (period : ℕ) (buy_level sell_level : ℚ)
    (_hper : 0 < period) (hlen : period + 1 ≤ closes.length) :
    calculate_rsi (extra ++ closes) period =
        calculate_rsi closes period ∧
      strategy_rsi ops (extra ++ closes) period buy_level sell_level =
        strategy_rsi ops closes period buy_level sell_level := by
  have hrsi := calculate_rsi_append closes extra period hlen
  refine ⟨hrsi, ?_⟩
  have hne : closes ≠ [] := by
    intro h
    rw [h] at hlen
    simp at hlen
  have hne2 : extra ++ closes ≠ [] := by simp [hne]
  have hlast : (extra ++ closes).getLastD 0 = closes.getLastD 0 := by
    rw [List.getLastD_eq_getLast?, List.getLastD_eq_getLast?,
      List.getLast?_append_of_ne_nil _ hne]
  simp only [strategy_rsi, if_neg hne, if_neg hne2, hrsi, hlast]

/-- Witness for C10: period 1 with closes [1, 2]; prepending the older
close 5 changes neither the RSI nor the strategy decision. -/
theorem rsi_trailing_window_w :
    calculate_rsi ([5] ++ [1, 2]) 1 = calculate_rsi [1, 2] 1 ∧
      strategy_rsi [] ([5] ++ [1, 2]) 1 30 70 =
        strategy_rsi [] [1, 2] 1 30 70 :=
  rsi_trailing_window [] [1, 2] [5] 1 30 70 (by norm_num) (by simp)

end TradeBot
